import Mathlib

/-!
Verification of the gateway request interceptor
(src/src/request-interceptor.ts) against its specification.

The JavaScript/TypeScript code is shallowly embedded: JSON values become an
inductive type, JavaScript objects become insertion-ordered entry lists with
unique keys, property assignment and object spread become explicit list
operations, and the three exported functions (propagateHeaders,
filterAndPrefixHeaders, handleInterceptorRequest) become Lean functions over
those representations.
-/

namespace AcGateway

/-- JSON-like runtime values of the gateway request bodies.  Numbers are
modelled as integers: the transform never performs arithmetic on a number,
it only tests truthiness and spreads values. -/
inductive Json where
| null : Json
| bool : Bool → Json
| num : Int → Json
| str : String → Json
| arr : List Json → Json
| obj : List (String × Json) → Json

/-- JavaScript truthiness of a defined value (an undefined value is
represented by Option.none at every use site). -/
def Json.truthy : Json → Bool
| .null => false
| .bool b => b
| .num n => n != 0
| .str s => s != ""
| .arr _ => true
| .obj _ => true

/-- Lookup of a key in the entry list of a JavaScript object.  Objects have
unique keys, so the first match is the only one. -/
def getVal {α : Type} : List (String × α) → String → Option α
| [], _ => none
| p :: rest, k => if p.1 = k then some p.2 else getVal rest k

/-- JavaScript property assignment on an entry list: an existing key keeps
its position and receives the new value, a new key is appended at the end. -/
def setKey {α : Type} : List (String × α) → String → α → List (String × α)
| [], k, v => [(k, v)]
| p :: rest, k, v => if p.1 = k then (k, v) :: rest else p :: setKey rest k v

/-- Sequential assignment of a list of entries onto an entry list, as
performed by a for-of loop over Object.entries or by object spread. -/
def assign {α : Type} (m : List (String × α)) (es : List (String × α)) : List (String × α) :=
  es.foldl (fun acc p => setKey acc p.1 p.2) m

/-- Entries contributed by spreading an arbitrary value into an object
literal: an object contributes its own entries, a string or an array
contributes its elements under stringified index keys, and every other
primitive contributes nothing. -/
def Json.spreadEntries : Json → List (String × Json)
| .obj m => assign [] m
| .str s => s.data.enum.map (fun p => (toString p.1, Json.str (String.mk [p.2])))
| .arr xs => xs.enum.map (fun p => (toString p.1, p.2))
| _ => []

/-- JavaScript member access on the values reachable after the falsy-default
guard in the handler: on an object it is a key lookup; on any other reachable
value (a truthy primitive, a string, an array) the accessed property is
absent, hence undefined (none).  Access on null or undefined is unreachable
there because the guard replaces every falsy value by an empty object. -/
def Json.getField : Json → String → Option Json
| .obj m, k => getVal m k
| _, _ => none

/-- JavaScript `e or-else d` defaulting for an optional value: the default is
taken when the value is undefined (none) or falsy. -/
def jsOrElse (v : Option Json) (d : Json) : Json :=
  match v with
  | some x => if x.truthy then x else d
  | none => d

/-- Model of JavaScript String.prototype.toLowerCase over the character
sequence. -/
def jsToLower (s : String) : String := String.mk (s.data.map Char.toLower)

/-- Model of JavaScript String.prototype.startsWith over the character
sequence. -/
def jsStartsWith (s p : String) : Bool := p.data.isPrefixOf s.data

/-- Transformed gateway request: header mapping plus body
(request-interceptor.ts lines 25-28). -/
structure TransformedGatewayRequest where
  headers : Option (List (String × String))
  body : List (String × Json)

/-- Transformed gateway response used to short-circuit
(request-interceptor.ts lines 30-33). -/
structure TransformedGatewayResponse where
  statusCode : Int
  body : List (String × Json)

/-- Raw gateway request carried in the input envelope
(request-interceptor.ts lines 12-14). -/
structure RawGatewayRequest where
  body : String

/-- Structured gateway request carried in the input envelope
(request-interceptor.ts lines 15-20). -/
structure GatewayRequest where
  path : String
  httpMethod : String
  headers : Option (List (String × String))
  body : List (String × Json)

/-- The mcp part of the input envelope (request-interceptor.ts lines 11-21). -/
structure InterceptorInputMcp where
  rawGatewayRequest : RawGatewayRequest
  gatewayRequest : GatewayRequest

/-- Input envelope (request-interceptor.ts lines 9-22). -/
structure InterceptorInput where
  interceptorInputVersion : String
  mcp : InterceptorInputMcp

/-- The mcp part of the output envelope (request-interceptor.ts lines 37-40). -/
structure InterceptorOutputMcp where
  transformedGatewayRequest : TransformedGatewayRequest
  transformedGatewayResponse : Option TransformedGatewayResponse

/-- Output envelope (request-interceptor.ts lines 35-41). -/
structure InterceptorOutput where
  interceptorOutputVersion : String
  mcp : InterceptorOutputMcp

/-- createTransformedGatewayResponse (request-interceptor.ts lines 47-70). -/
def createTransformedGatewayResponse (statusCode : Int) (body : List (String × Json)) :
    TransformedGatewayResponse :=
  { statusCode := statusCode, body := body }

/-- propagateHeaders (request-interceptor.ts lines 78-101): start from an
empty mapping, copy every incoming entry, then every additional entry on
top. -/
def propagateHeaders (incomingHeaders additionalHeaders : Option (List (String × String))) :
    List (String × String) :=
  let propagatedHeaders : List (String × String) := []
  let propagatedHeaders :=
    match incomingHeaders with
    | some hs => assign propagatedHeaders hs
    | none => propagatedHeaders
  let propagatedHeaders :=
    match additionalHeaders with
    | some hs => assign propagatedHeaders hs
    | none => propagatedHeaders
  propagatedHeaders

/-- The reserved-header test of filterAndPrefixHeaders
(request-interceptor.ts line 119): the lowercased key starts with x-amzn. -/
def isAmzn (k : String) : Bool := jsStartsWith (jsToLower k) "x-amzn"

/-- The loop of filterAndPrefixHeaders (request-interceptor.ts lines
117-124): skip a header whose lowercased key starts with x-amzn, otherwise
assign the value under the key extended with the mcp_header_ marker. -/
def filterFold (result : List (String × String)) (hs : List (String × String)) :
    List (String × String) :=
  hs.foldl (fun acc kv =>
    if isAmzn kv.1 then acc
    else setKey acc ("mcp_header_" ++ kv.1) kv.2) result

/-- filterAndPrefixHeaders (request-interceptor.ts lines 108-129). -/
def filterAndPrefixHeaders (headers : Option (List (String × String))) :
    List (String × String) :=
  match headers with
  | none => []
  | some hs => filterFold [] hs

/-- The body-reshaping step of handleInterceptorRequest
(request-interceptor.ts lines 150-164): default params and
params.arguments through the falsy guard, then rebuild the body with the
nested object literals, spreading the original body, the params value, the
arguments value and the filtered header mapping. -/
def mergedBody (originalBody : List (String × Json))
    (prefixedHeaders : List (String × String)) : List (String × Json) :=
  let params := jsOrElse (getVal originalBody "params") (Json.obj [])
  let existingArguments := jsOrElse (params.getField "arguments") (Json.obj [])
  assign (assign [] originalBody)
    [("params", Json.obj (assign params.spreadEntries
      [("arguments", Json.obj (assign existingArguments.spreadEntries
        (prefixedHeaders.map (fun p => (p.1, Json.str p.2)))))]))]

/-- handleInterceptorRequest (request-interceptor.ts lines 136-179), with
the diagnostic logging dropped: propagate the incoming headers with no
additional headers, filter and rename them, merge them into the body, and
emit the output envelope with version 1.0 and no transformed response. -/
def handleInterceptorRequest (input : InterceptorInput) : InterceptorOutput :=
  let headers := propagateHeaders input.mcp.gatewayRequest.headers none
  let prefixedHeaders := filterAndPrefixHeaders input.mcp.gatewayRequest.headers
  let merged := mergedBody input.mcp.gatewayRequest.body prefixedHeaders
  { interceptorOutputVersion := "1.0"
    mcp :=
      { transformedGatewayRequest := { headers := some headers, body := merged }
        transformedGatewayResponse := none } }

/-- Value of the last occurrence of a key in an entry list; this is the
value that survives sequential assignment of the list. -/
def lastVal {α : Type} : List (String × α) → String → Option α
| [], _ => none
| p :: rest, k =>
  match lastVal rest k with
  | some v => some v
  | none => if p.1 = k then some p.2 else none

/-- Specification-side description of filterAndPrefixHeaders on a key-unique
mapping: keep the entries whose lowercased key does not start with x-amzn and
extend each surviving key with the mcp_header_ marker. -/
def filterPrefixList (hs : List (String × String)) : List (String × String) :=
  (hs.filter (fun p => !(isAmzn p.1))).map (fun p => ("mcp_header_" ++ p.1, p.2))

/-- Observer: the key list of the object stored under a key of a body, or the
empty list when the key is absent or holds a non-object. -/
def objKeysAt (l : List (String × Json)) (k : String) : List String :=
  match getVal l k with
  | some (Json.obj m) => m.map Prod.fst
  | _ => []

/-- Observer: the entry list of the params.arguments object of a body, or the
empty list when a step of the path is absent or a non-object. -/
def argsOf (b : List (String × Json)) : List (String × Json) :=
  match getVal b "params" with
  | some (Json.obj pm) =>
    match getVal pm "arguments" with
    | some (Json.obj am) => am
    | _ => []
  | _ => []

mutual

/-- Model of JSON.stringify on the embedded JSON values.  Serialization is
total on this domain: every embedded value is finite and acyclic. -/
def jsonStringify : Json → String
| .null => "null"
| .bool true => "true"
| .bool false => "false"
| .num n => toString n
| .str s => "\x22" ++ s ++ "\x22"
| .arr xs => "[" ++ jsonStringifyArr xs ++ "]"
| .obj m => "\x7b" ++ jsonStringifyObj m ++ "\x7d"

/-- Serialization of the elements of a JSON array, comma separated. -/
def jsonStringifyArr : List Json → String
| [] => ""
| [x] => jsonStringify x
| x :: xs => jsonStringify x ++ "," ++ jsonStringifyArr xs

/-- Serialization of the entries of a JSON object, comma separated. -/
def jsonStringifyObj : List (String × Json) → String
| [] => ""
| [kv] => "\x22" ++ kv.1 ++ "\x22:" ++ jsonStringify kv.2
| kv :: rest => "\x22" ++ kv.1 ++ "\x22:" ++ jsonStringify kv.2 ++ "," ++ jsonStringifyObj rest

end

/-- Serialization of a header mapping as a JSON object. -/
def stringifyHeaders (h : List (String × String)) : String :=
  jsonStringify (Json.obj (h.map (fun p => (p.1, Json.str p.2))))

/-- Serialization of an optional header mapping; JSON.stringify of undefined
prints as undefined. -/
def stringifyOptHeaders : Option (List (String × String)) → String
| none => "undefined"
| some h => stringifyHeaders h

/-- JSON value of the input envelope as JSON.stringify sees it; an undefined
headers field is omitted. -/
def inputToJson (input : InterceptorInput) : Json :=
  Json.obj
    [("interceptorInputVersion", Json.str input.interceptorInputVersion),
     ("mcp", Json.obj
       [("rawGatewayRequest", Json.obj
         [("body", Json.str input.mcp.rawGatewayRequest.body)]),
        ("gatewayRequest", Json.obj
          ([("path", Json.str input.mcp.gatewayRequest.path),
            ("httpMethod", Json.str input.mcp.gatewayRequest.httpMethod)] ++
           (match input.mcp.gatewayRequest.headers with
            | none => []
            | some hs => [("headers", Json.obj (hs.map (fun p => (p.1, Json.str p.2))))]) ++
           [("body", Json.obj input.mcp.gatewayRequest.body)]))])]

/-- JSON value of the output envelope as JSON.stringify sees it; the absent
transformed response is omitted. -/
def outputToJson (output : InterceptorOutput) : Json :=
  Json.obj
    [("interceptorOutputVersion", Json.str output.interceptorOutputVersion),
     ("mcp", Json.obj
       ([("transformedGatewayRequest", Json.obj
          ((match output.mcp.transformedGatewayRequest.headers with
            | none => []
            | some hs => [("headers", Json.obj (hs.map (fun p => (p.1, Json.str p.2))))]) ++
           [("body", Json.obj output.mcp.transformedGatewayRequest.body)]))] ++
        (match output.mcp.transformedGatewayResponse with
         | none => []
         | some r => [("transformedGatewayResponse", Json.obj
             [("statusCode", Json.num r.statusCode), ("body", Json.obj r.body)])])))]

/-- propagateHeaders with its diagnostic log line (request-interceptor.ts
line 98): the computed mapping together with the text written to the
console. -/
def propagateHeadersLogged (incomingHeaders additionalHeaders : Option (List (String × String))) :
    List (String × String) × List String :=
  let propagatedHeaders : List (String × String) := []
  let propagatedHeaders :=
    match incomingHeaders with
    | some hs => assign propagatedHeaders hs
    | none => propagatedHeaders
  let propagatedHeaders :=
    match additionalHeaders with
    | some hs => assign propagatedHeaders hs
    | none => propagatedHeaders
  (propagatedHeaders, ["Propagated Headers: " ++ stringifyHeaders propagatedHeaders])

/-- filterAndPrefixHeaders with its diagnostic log line
(request-interceptor.ts line 126). -/
def filterAndPrefixHeadersLogged (headers : Option (List (String × String))) :
    List (String × String) × List String :=
  let result : List (String × String) :=
    match headers with
    | none => []
    | some hs => filterFold [] hs
  (result, ["Filtered and Prefixed Headers: " ++ stringifyHeaders result])

/-- handleInterceptorRequest with every console.log line of the source
(request-interceptor.ts lines 137-142, 98, 126 and 176) collected in order:
the output envelope together with the log transcript. -/
def handleInterceptorRequestLogged (input : InterceptorInput) :
    InterceptorOutput × List String :=
  let entryLogs : List String :=
    ["Interceptor Input: " ++ jsonStringify (inputToJson input),
     "Raw Gateway Request Body: " ++ input.mcp.rawGatewayRequest.body,
     "Gateway Request Path: " ++ input.mcp.gatewayRequest.path,
     "Gateway Request Method: " ++ input.mcp.gatewayRequest.httpMethod,
     "Gateway Request Headers: " ++ stringifyOptHeaders input.mcp.gatewayRequest.headers,
     "Gateway Request Body: " ++ jsonStringify (Json.obj input.mcp.gatewayRequest.body)]
  let propagated := propagateHeadersLogged input.mcp.gatewayRequest.headers none
  let filtered := filterAndPrefixHeadersLogged input.mcp.gatewayRequest.headers
  let merged := mergedBody input.mcp.gatewayRequest.body filtered.1
  let output : InterceptorOutput :=
    { interceptorOutputVersion := "1.0"
      mcp :=
        { transformedGatewayRequest := { headers := some propagated.1, body := merged }
          transformedGatewayResponse := none } }
  (output, entryLogs ++ propagated.2 ++ filtered.2 ++
    ["Interceptor Output: " ++ jsonStringify (outputToJson output)])

example : filterAndPrefixHeaders (some [("Authorization", "Bearer t"), ("x-amzn-trace", "1")]) =
    [("mcp_header_Authorization", "Bearer t")] := by decide

example : mergedBody [("a", Json.num 1)] [("mcp_header_X", "v")] =
    [("a", Json.num 1),
     ("params", Json.obj [("arguments", Json.obj [("mcp_header_X", Json.str "v")])])] := rfl

example : mergedBody [("a", Json.num 1), ("params", Json.obj [("b", Json.num 2),
      ("arguments", Json.obj [("c", Json.num 3)])])] [("mcp_header_X", "v")] =
    [("a", Json.num 1), ("params", Json.obj [("b", Json.num 2),
      ("arguments", Json.obj [("c", Json.num 3), ("mcp_header_X", Json.str "v")])])] := rfl

example : mergedBody [("params", Json.str "ab")] [] =
    [("params", Json.obj [("0", Json.str "a"), ("1", Json.str "b"),
      ("arguments", Json.obj [])])] := rfl

/-- Assignment updates the assigned key and leaves every other key
unchanged. -/
theorem getVal_setKey {α : Type} (m : List (String × α)) (k : String) (v : α) (q : String) :
    getVal (setKey m k v) q = if q = k then some v else getVal m q := by
  induction m with
  | nil =>
    by_cases h : q = k
    · subst h
      simp [setKey, getVal]
    · simp [setKey, getVal, h, Ne.symm h]
  | cons p rest ih =>
    by_cases hp : p.1 = k
    · by_cases hq : q = k
      · subst hq
        simp [setKey, hp, getVal]
      · simp [setKey, hp, getVal, hq, Ne.symm hq]
    · by_cases hq : p.1 = q
      · have hqk : ¬ q = k := fun h => hp (hq.trans h)
        simp [setKey, hp, getVal, hq, hqk]
      · simp [setKey, hp, getVal, hq, ih]

/-- Sequential assignment realises the last-occurrence semantics: the value
found after assigning a list of entries is the last value the list carries
for the key, and otherwise the value already present. -/
theorem getVal_assign {α : Type} (es : List (String × α)) (m : List (String × α)) (q : String) :
    getVal (assign m es) q =
      match lastVal es q with
      | some v => some v
      | none => getVal m q := by
  induction es generalizing m with
  | nil => simp [assign, lastVal]
  | cons p rest ih =>
    have hstep : assign m (p :: rest) = assign (setKey m p.1 p.2) rest := rfl
    rw [hstep, ih]
    cases h : lastVal rest q with
    | some v => simp [lastVal, h]
    | none =>
      by_cases hq : p.1 = q
      · subst hq
        simp [lastVal, h, getVal_setKey]
      · have hq2 : ¬ q = p.1 := fun hh => hq hh.symm
        simp [lastVal, h, getVal_setKey, hq, hq2]

/-- A key that does not occur in a list has no last occurrence. -/
theorem lastVal_eq_none {α : Type} (es : List (String × α)) (q : String)
    (h : q ∉ es.map Prod.fst) : lastVal es q = none := by
  induction es with
  | nil => rfl
  | cons p rest ih =>
    simp only [List.map_cons, List.mem_cons] at h
    push_neg at h
    simp [lastVal, ih h.2, Ne.symm h.1]

/-- A key that does not occur in a list is not found in it. -/
theorem getVal_eq_none {α : Type} (es : List (String × α)) (q : String)
    (h : q ∉ es.map Prod.fst) : getVal es q = none := by
  induction es with
  | nil => rfl
  | cons p rest ih =>
    simp only [List.map_cons, List.mem_cons] at h
    push_neg at h
    simp [getVal, ih h.2, Ne.symm h.1]

/-- On a key-unique list the last occurrence is the only occurrence. -/
theorem lastVal_eq_getVal {α : Type} (es : List (String × α)) (q : String)
    (h : (es.map Prod.fst).Nodup) : lastVal es q = getVal es q := by
  induction es with
  | nil => rfl
  | cons p rest ih =>
    simp only [List.map_cons, List.nodup_cons] at h
    by_cases hq : p.1 = q
    · have h0 : q ∉ rest.map Prod.fst := hq ▸ h.1
      simp [lastVal, getVal, lastVal_eq_none rest q h0, hq]
    · cases hgv : getVal rest q with
      | none => simp [lastVal, getVal, ih h.2, hq, hgv]
      | some v => simp [lastVal, getVal, ih h.2, hq, hgv]

/-- Assigning a fresh key appends its entry. -/
theorem setKey_append {α : Type} (m : List (String × α)) (k : String) (v : α)
    (h : k ∉ m.map Prod.fst) : setKey m k v = m ++ [(k, v)] := by
  induction m with
  | nil => rfl
  | cons p rest ih =>
    simp only [List.map_cons, List.mem_cons] at h
    push_neg at h
    simp [setKey, Ne.symm h.1, ih h.2]

/-- Sequentially assigning key-unique entries that are all fresh appends
them in order. -/
theorem assign_append {α : Type} (es : List (String × α)) (m : List (String × α))
    (hnd : (es.map Prod.fst).Nodup)
    (hdisj : ∀ q ∈ es.map Prod.fst, q ∉ m.map Prod.fst) :
    assign m es = m ++ es := by
  induction es generalizing m with
  | nil => simp [assign]
  | cons p rest ih =>
    simp only [List.map_cons, List.nodup_cons] at hnd
    have h1 : p.1 ∉ m.map Prod.fst := hdisj p.1 (by simp)
    have hstep : assign m (p :: rest) = assign (setKey m p.1 p.2) rest := rfl
    rw [hstep, setKey_append m p.1 p.2 h1, ih (m ++ [(p.1, p.2)]) hnd.2]
    · simp
    · intro q hq
      simp only [List.map_append, List.mem_append, not_or]
      constructor
      · exact hdisj q (by simp [hq])
      · intro hm
        simp at hm
        exact hnd.1 (hm ▸ hq)

/-- Sequentially assigning key-unique entries into an empty object
reproduces the entry list. -/
theorem assign_nil {α : Type} (es : List (String × α)) (h : (es.map Prod.fst).Nodup) :
    assign [] es = es := by
  simpa using assign_append es [] h (by simp)

/-- Assignment of entries that never mention a key does not change the value
at that key. -/
theorem getVal_assign_of_not_mem {α : Type} (es : List (String × α)) (m : List (String × α))
    (q : String) (h : q ∉ es.map Prod.fst) : getVal (assign m es) q = getVal m q := by
  rw [getVal_assign, lastVal_eq_none es q h]

/-- Appending to a fixed string on the left is injective, so the renaming of
the surviving header keys is injective. -/
theorem append_inj_right (p a b : String) (h : p ++ a = p ++ b) : a = b := by
  have hd : p.data ++ a.data = p.data ++ b.data := by
    rw [← String.data_append, ← String.data_append, h]
  exact String.ext (List.append_cancel_left hd)

/-- The marker-extended form of a key determines the key inside any list of
marker-extended keys. -/
theorem marker_injective : Function.Injective (fun s => "mcp_header_" ++ s) :=
  fun a b h => append_inj_right "mcp_header_" a b h

/-- The filter loop over key-unique headers, started on an object whose keys
are disjoint from the extended surviving keys, appends exactly the filtered
and renamed entries. -/
theorem filterFold_eq (hs : List (String × String)) (acc : List (String × String))
    (hnd : (hs.map Prod.fst).Nodup)
    (hfresh : ∀ k ∈ hs.map Prod.fst, isAmzn k = false →
      ("mcp_header_" ++ k) ∉ acc.map Prod.fst) :
    filterFold acc hs = acc ++ filterPrefixList hs := by
  induction hs generalizing acc with
  | nil => simp [filterFold, filterPrefixList]
  | cons kv rest ih =>
    simp only [List.map_cons, List.nodup_cons] at hnd
    cases ha : isAmzn kv.1 with
    | true =>
      have hstep : filterFold acc (kv :: rest) = filterFold acc rest := by
        simp [filterFold, ha]
      rw [hstep, ih acc hnd.2 (fun k hk hamz => hfresh k (by simp [hk]) hamz)]
      simp [filterPrefixList, List.filter, ha]
    | false =>
      have hstep : filterFold acc (kv :: rest) =
          filterFold (setKey acc ("mcp_header_" ++ kv.1) kv.2) rest := by
        simp [filterFold, ha]
      have hf1 : ("mcp_header_" ++ kv.1) ∉ acc.map Prod.fst :=
        hfresh kv.1 (by simp) ha
      rw [hstep, setKey_append acc _ _ hf1,
        ih (acc ++ [("mcp_header_" ++ kv.1, kv.2)]) hnd.2]
      · simp [filterPrefixList, List.filter, ha]
      · intro k hk hamz
        simp only [List.map_append, List.mem_append, not_or]
        constructor
        · exact hfresh k (by simp [hk]) hamz
        · intro hm
          simp at hm
          exact hnd.1 (append_inj_right "mcp_header_" _ _ hm ▸ hk)

/-- filterAndPrefixHeaders on a key-unique mapping is the filtered and
renamed entry list. -/
theorem filterAndPrefixHeaders_eq (hs : List (String × String))
    (hnd : (hs.map Prod.fst).Nodup) :
    filterAndPrefixHeaders (some hs) = filterPrefixList hs := by
  simpa [filterAndPrefixHeaders] using filterFold_eq hs [] hnd (by simp)

/-- A key that occurs in a list is found with some value. -/
theorem getVal_isSome_of_mem {α : Type} (es : List (String × α)) (q : String)
    (h : q ∈ es.map Prod.fst) : ∃ v, getVal es q = some v := by
  induction es with
  | nil => simp at h
  | cons p rest ih =>
    by_cases hq : p.1 = q
    · exact ⟨p.2, by simp [getVal, hq]⟩
    · have hmem : q ∈ rest.map Prod.fst := by
        rcases (by simpa using h : q = p.1 ∨ q ∈ rest.map Prod.fst) with h1 | h1
        · exact absurd h1.symm hq
        · exact h1
      rcases ih hmem with ⟨v, hv⟩
      exact ⟨v, by simp [getVal, hq, hv]⟩

/-- A key present after an assignment is the assigned key or a key that was
already present. -/
theorem keys_setKey_subset {α : Type} (m : List (String × α)) (k : String) (v : α)
    (q : String) (h : q ∈ (setKey m k v).map Prod.fst) :
    q = k ∨ q ∈ m.map Prod.fst := by
  by_cases hq : q = k
  · exact Or.inl hq
  · right
    by_contra hmem
    rcases getVal_isSome_of_mem _ _ h with ⟨v2, hv2⟩
    rw [getVal_setKey, if_neg hq, getVal_eq_none m q hmem] at hv2
    exact Option.noConfusion hv2

/-- Every key produced by the filter loop that was not already in the
accumulator carries the mcp_header_ marker. -/
theorem filterFold_keys (hs : List (String × String)) (acc : List (String × String))
    (q : String) (h : q ∈ (filterFold acc hs).map Prod.fst) :
    q ∈ acc.map Prod.fst ∨ ∃ t, q = "mcp_header_" ++ t := by
  induction hs generalizing acc with
  | nil => exact Or.inl (by simpa [filterFold] using h)
  | cons kv rest ih =>
    cases ha : isAmzn kv.1 with
    | true =>
      have hstep : filterFold acc (kv :: rest) = filterFold acc rest := by
        simp [filterFold, ha]
      exact ih acc (hstep ▸ h)
    | false =>
      have hstep : filterFold acc (kv :: rest) =
          filterFold (setKey acc ("mcp_header_" ++ kv.1) kv.2) rest := by
        simp [filterFold, ha]
      rcases ih _ (hstep ▸ h) with hmem | hform
      · rcases keys_setKey_subset _ _ _ _ hmem with h2 | h2
        · exact Or.inr ⟨kv.1, h2⟩
        · exact Or.inl h2
      · exact Or.inr hform

/-- Every key of the filtered and renamed header mapping carries the
mcp_header_ marker. -/
theorem filterAndPrefixHeaders_keys (headers : Option (List (String × String)))
    (q : String) (h : q ∈ (filterAndPrefixHeaders headers).map Prod.fst) :
    ∃ t, q = "mcp_header_" ++ t := by
  cases headers with
  | none => simp [filterAndPrefixHeaders] at h
  | some hs =>
    rcases filterFold_keys hs [] q (by simpa [filterAndPrefixHeaders] using h) with hmem | hform
    · simp at hmem
    · exact hform

/-- The last occurrence in a list of entries whose values are wrapped as
JSON strings is the wrapped last occurrence. -/
theorem lastVal_map_str (es : List (String × String)) (q : String) :
    lastVal (es.map (fun p => (p.1, Json.str p.2))) q = (lastVal es q).map Json.str := by
  induction es with
  | nil => rfl
  | cons p rest ih =>
    cases h : lastVal rest q with
    | some v => simp [lastVal, ih, h]
    | none =>
      by_cases hq : p.1 = q <;> simp [lastVal, ih, h, hq]

/-- Wrapping values as JSON strings does not change the key list. -/
theorem keys_map_str (es : List (String × String)) :
    (es.map (fun p => (p.1, Json.str p.2))).map Prod.fst = es.map Prod.fst := by
  simp [List.map_map]

/-- A list splits into the elements accepted and rejected by a test. -/
theorem length_filter_split {α : Type} (l : List α) (p : α → Bool) :
    (l.filter p).length + (l.filter (fun a => !(p a))).length = l.length := by
  induction l with
  | nil => rfl
  | cons a rest ih =>
    cases hp : p a <;> simp [List.filter_cons, hp] <;> omega

/-- Value found in the filtered and renamed list under a marker-extended
key: none for a reserved key, otherwise the original value. -/
theorem getVal_filterPrefixList (hs : List (String × String)) (k : String) :
    getVal (filterPrefixList hs) ("mcp_header_" ++ k) =
      if isAmzn k then none else getVal hs k := by
  induction hs with
  | nil => cases h : isAmzn k <;> simp [filterPrefixList, getVal, h]
  | cons p rest ih =>
    by_cases hpk : p.1 = k
    · subst hpk
      cases h : isAmzn p.1 with
      | true =>
        have heq2 : filterPrefixList (p :: rest) = filterPrefixList rest := by
          simp [filterPrefixList, List.filter_cons, h]
        rw [heq2, ih, h]
        simp
      | false =>
        have heq2 : filterPrefixList (p :: rest) =
            ("mcp_header_" ++ p.1, p.2) :: filterPrefixList rest := by
          simp [filterPrefixList, List.filter_cons, h]
        rw [heq2]
        simp [getVal, h]
    · cases h : isAmzn p.1 with
      | true =>
        have heq2 : filterPrefixList (p :: rest) = filterPrefixList rest := by
          simp [filterPrefixList, List.filter_cons, h]
        rw [heq2, ih]
        cases hk : isAmzn k <;> simp [getVal, hpk, hk]
      | false =>
        have heq2 : filterPrefixList (p :: rest) =
            ("mcp_header_" ++ p.1, p.2) :: filterPrefixList rest := by
          simp [filterPrefixList, List.filter_cons, h]
        have hne : ¬ ("mcp_header_" ++ p.1 = "mcp_header_" ++ k) :=
          fun hh => hpk (append_inj_right _ _ _ hh)
        rw [heq2]
        simp only [getVal, if_neg hne]
        rw [ih]
        cases hk : isAmzn k <;> simp [getVal, hpk, hk]

/-- Claim C2: filterAndPrefixHeaders on a key-unique mapping is exactly the
filtered and renamed entry list: one marker-extended entry per surviving
key with the original value, no other entries, key count equal to the input
count minus the count of reserved x-amzn keys, and the empty mapping for
absent input. -/
theorem filterAndPrefixHeaders_spec (hs : List (String × String))
    (hnd : (hs.map Prod.fst).Nodup) :
    filterAndPrefixHeaders (some hs) = filterPrefixList hs
    ∧ ((filterAndPrefixHeaders (some hs)).map Prod.fst).Nodup
    ∧ (∀ k v, getVal hs k = some v → isAmzn k = false →
        getVal (filterAndPrefixHeaders (some hs)) ("mcp_header_" ++ k) = some v)
    ∧ (∀ e ∈ filterAndPrefixHeaders (some hs),
        ∃ p, p ∈ hs ∧ isAmzn p.1 = false ∧ e = ("mcp_header_" ++ p.1, p.2))
    ∧ (filterAndPrefixHeaders (some hs)).length =
        hs.length - (hs.filter (fun p => isAmzn p.1)).length
    ∧ filterAndPrefixHeaders none = [] := by
  have heq := filterAndPrefixHeaders_eq hs hnd
  have hkeys : (filterPrefixList hs).map Prod.fst =
      ((hs.filter (fun p => !(isAmzn p.1))).map Prod.fst).map
        (fun s => "mcp_header_" ++ s) := by
    simp only [filterPrefixList, List.map_map]
    rfl
  refine ⟨heq, ?_, ?_, ?_, ?_, rfl⟩
  · rw [heq, hkeys]
    exact List.Nodup.map marker_injective
      (hnd.sublist ((List.filter_sublist hs).map Prod.fst))
  · intro k v hv hamz
    rw [heq, getVal_filterPrefixList, hamz]
    simpa using hv
  · intro e he
    rw [heq] at he
    simp only [filterPrefixList, List.mem_map, List.mem_filter] at he
    rcases he with ⟨p, ⟨hp1, hp2⟩, rfl⟩
    exact ⟨p, hp1, by simpa using hp2, rfl⟩
  · have hsplit := length_filter_split hs (fun p => isAmzn p.1)
    have hlen : (filterAndPrefixHeaders (some hs)).length =
        (hs.filter (fun p => !(isAmzn p.1))).length := by
      rw [heq]
      simp [filterPrefixList]
    omega

/-- Witness for claim C2 at a mapping with one surviving and one reserved
header. -/
theorem filterAndPrefixHeaders_spec_witness :
    filterAndPrefixHeaders (some [("Authorization", "Bearer t"), ("x-amzn-trace", "1")]) =
      filterPrefixList [("Authorization", "Bearer t"), ("x-amzn-trace", "1")] :=
  (filterAndPrefixHeaders_spec [("Authorization", "Bearer t"), ("x-amzn-trace", "1")]
    (by decide)).1

/-- Claim C3: for key-unique header mappings, propagateHeaders contains
every key of the incoming mapping not overridden by the additional mapping
with its incoming value, every key of the additional mapping with its
additional value, and no other keys; an absent mapping behaves as the empty
mapping and the function is total. -/
theorem propagateHeaders_spec (h1 h2 : List (String × String))
    (hnd1 : (h1.map Prod.fst).Nodup) (hnd2 : (h2.map Prod.fst).Nodup) :
    (∀ q, getVal (propagateHeaders (some h1) (some h2)) q =
      match getVal h2 q with
      | some v => some v
      | none => getVal h1 q)
    ∧ (∀ q, getVal (propagateHeaders (some h1) (some h2)) q ≠ none →
        q ∈ h1.map Prod.fst ∨ q ∈ h2.map Prod.fst)
    ∧ propagateHeaders none (some h2) = propagateHeaders (some []) (some h2)
    ∧ propagateHeaders (some h1) none = propagateHeaders (some h1) (some [])
    ∧ propagateHeaders none none = [] := by
  have hmain : ∀ q, getVal (propagateHeaders (some h1) (some h2)) q =
      match getVal h2 q with
      | some v => some v
      | none => getVal h1 q := by
    intro q
    show getVal (assign (assign [] h1) h2) q = _
    rw [getVal_assign, lastVal_eq_getVal h2 q hnd2]
    cases hg2 : getVal h2 q with
    | some v => rfl
    | none =>
      rw [getVal_assign, lastVal_eq_getVal h1 q hnd1]
      cases hg1 : getVal h1 q <;> rfl
  refine ⟨hmain, ?_, rfl, rfl, rfl⟩
  intro q hne
  by_contra hmem
  push_neg at hmem
  rw [hmain q, getVal_eq_none h2 q hmem.2, getVal_eq_none h1 q hmem.1] at hne
  exact hne rfl

/-- Witness for claim C3 at a concrete collision: the additional value wins
and a purely incoming key survives. -/
theorem propagateHeaders_spec_witness :
    getVal (propagateHeaders (some [("A", "1"), ("B", "2")]) (some [("B", "3")])) "B" =
      some "3" := by
  have h := propagateHeaders_spec [("A", "1"), ("B", "2")] [("B", "3")]
    (by decide) (by decide)
  rw [h.1 "B"]
  rfl

/-- Claim C5: every output envelope carries interceptorOutputVersion 1.0,
its transformed request is made of the propagated headers (no additional
headers) and the merged body, and its transformed response is absent. -/
theorem handleInterceptorRequest_output_shape (input : InterceptorInput) :
    (handleInterceptorRequest input).interceptorOutputVersion = "1.0"
    ∧ (handleInterceptorRequest input).mcp.transformedGatewayRequest.headers =
        some (propagateHeaders input.mcp.gatewayRequest.headers none)
    ∧ (handleInterceptorRequest input).mcp.transformedGatewayRequest.body =
        mergedBody input.mcp.gatewayRequest.body
          (filterAndPrefixHeaders input.mcp.gatewayRequest.headers)
    ∧ (handleInterceptorRequest input).mcp.transformedGatewayResponse = none :=
  ⟨rfl, rfl, rfl, rfl⟩

/-- Claim C6: the transform with the full diagnostic log transcript returns
the very output envelope of the log-free transform on every input, so the
content or fate of the logging never influences or aborts the returned
envelope; on the embedded JSON domain serialization is total. -/
theorem logging_preserves_output (input : InterceptorInput) :
    (handleInterceptorRequestLogged input).1 = handleInterceptorRequest input := rfl

/-- Claim C7: filterAndPrefixHeaders is not idempotent; re-application
compounds the marker on a surviving key. -/
theorem filterAndPrefixHeaders_not_idempotent :
    ∃ H : List (String × String),
      filterAndPrefixHeaders (some (filterAndPrefixHeaders (some H))) ≠
        filterAndPrefixHeaders (some H) :=
  ⟨[("A", "v")], by decide⟩

/-- Claim C10: the headers field of the transformed request is always
present; it is the empty mapping when the envelope has no header mapping and
otherwise reproduces a key-unique incoming mapping exactly. -/
theorem output_headers_always_present (input : InterceptorInput) :
    (handleInterceptorRequest input).mcp.transformedGatewayRequest.headers =
      some (propagateHeaders input.mcp.gatewayRequest.headers none)
    ∧ (input.mcp.gatewayRequest.headers = none →
        (handleInterceptorRequest input).mcp.transformedGatewayRequest.headers = some [])
    ∧ (∀ hs, input.mcp.gatewayRequest.headers = some hs → (hs.map Prod.fst).Nodup →
        (handleInterceptorRequest input).mcp.transformedGatewayRequest.headers = some hs) := by
  refine ⟨rfl, ?_, ?_⟩
  · intro h
    show some (propagateHeaders input.mcp.gatewayRequest.headers none) = some []
    rw [h]
    rfl
  · intro hs h hnd
    show some (propagateHeaders input.mcp.gatewayRequest.headers none) = some hs
    rw [h]
    show some (assign [] hs) = some hs
    rw [assign_nil hs hnd]

/-- Witness for claim C10 at a concrete envelope with one header. -/
theorem output_headers_always_present_witness :
    (handleInterceptorRequest
      { interceptorInputVersion := "1.0"
        mcp :=
          { rawGatewayRequest := { body := "" }
            gatewayRequest :=
              { path := "/mcp", httpMethod := "POST"
                headers := some [("Authorization", "Bearer t")]
                body := [] } } }).mcp.transformedGatewayRequest.headers =
      some [("Authorization", "Bearer t")] :=
  (output_headers_always_present _).2.2 [("Authorization", "Bearer t")] rfl (by decide)

/-- Claim C1: on a key-unique body whose params and params.arguments are
objects or absent (absent defaulting to empty), the merged body is the
original body with params replaced in place by the shallow-copied params
object whose arguments object is the shallow-copied arguments extended by
the filtered header entries; header entries win on key collision, every
other top-level and params-level entry is unchanged, and the concrete
example of the specification holds. -/
theorem mergedBody_spec (body : List (String × Json)) (P : List (String × String))
    (pm am : List (String × Json))
    (hbody : (body.map Prod.fst).Nodup)
    (hpm : (pm.map Prod.fst).Nodup)
    (ham : (am.map Prod.fst).Nodup)
    (hP : (P.map Prod.fst).Nodup)
    (hparams : getVal body "params" = some (Json.obj pm) ∨
      (getVal body "params" = none ∧ pm = []))
    (hargs : getVal pm "arguments" = some (Json.obj am) ∨
      (getVal pm "arguments" = none ∧ am = [])) :
    mergedBody body P = setKey body "params" (Json.obj (setKey pm "arguments"
      (Json.obj (assign am (P.map (fun p => (p.1, Json.str p.2)))))))
    ∧ (∀ q, q ≠ "params" → getVal (mergedBody body P) q = getVal body q)
    ∧ getVal (mergedBody body P) "params" = some (Json.obj (setKey pm "arguments"
        (Json.obj (assign am (P.map (fun p => (p.1, Json.str p.2)))))))
    ∧ (∀ q, q ≠ "arguments" →
        getVal (setKey pm "arguments"
          (Json.obj (assign am (P.map (fun p => (p.1, Json.str p.2)))))) q = getVal pm q)
    ∧ (∀ q, getVal (assign am (P.map (fun p => (p.1, Json.str p.2)))) q =
        match getVal P q with
        | some v => some (Json.str v)
        | none => getVal am q)
    ∧ mergedBody [("a", Json.num 1)] [("mcp_header_X", "v")] =
        [("a", Json.num 1), ("params", Json.obj [("arguments", Json.obj
          [("mcp_header_X", Json.str "v")])])] := by
  have hPV : jsOrElse (getVal body "params") (Json.obj []) = Json.obj pm := by
    rcases hparams with hp | ⟨hp, hpm2⟩
    · rw [hp]
      rfl
    · rw [hp, hpm2]
      rfl
  have hAV : jsOrElse ((Json.obj pm).getField "arguments") (Json.obj []) = Json.obj am := by
    show jsOrElse (getVal pm "arguments") (Json.obj []) = _
    rcases hargs with hp | ⟨hp, ham2⟩
    · rw [hp]
      rfl
    · rw [hp, ham2]
      rfl
  have hmain : mergedBody body P = setKey body "params" (Json.obj (setKey pm "arguments"
      (Json.obj (assign am (P.map (fun p => (p.1, Json.str p.2))))))) := by
    simp only [mergedBody]
    rw [hPV, hAV]
    simp only [Json.spreadEntries]
    rw [assign_nil body hbody, assign_nil pm hpm, assign_nil am ham]
    rfl
  refine ⟨hmain, ?_, ?_, ?_, ?_, rfl⟩
  · intro q hq
    rw [hmain, getVal_setKey, if_neg hq]
  · rw [hmain, getVal_setKey, if_pos rfl]
  · intro q hq
    rw [getVal_setKey, if_neg hq]
  · intro q
    rw [getVal_assign, lastVal_map_str, lastVal_eq_getVal P q hP]
    cases hgp : getVal P q <;> rfl

/-- Witness for claim C1: the body of the specification example with the
one filtered header entry. -/
theorem mergedBody_spec_witness :
    mergedBody [("a", Json.num 1)] [("mcp_header_X", "v")] =
      setKey [("a", Json.num 1)] "params" (Json.obj (setKey [] "arguments"
        (Json.obj (assign []
          ([("mcp_header_X", "v")].map (fun p => (p.1, Json.str p.2))))))) :=
  (mergedBody_spec [("a", Json.num 1)] [("mcp_header_X", "v")] [] []
    (by decide) (by decide) (by decide) (by decide)
    (Or.inr ⟨rfl, rfl⟩) (Or.inr ⟨rfl, rfl⟩)).1

/-- Claim C9: a pre-existing params.arguments entry whose key does not carry
the mcp_header_ marker survives into the arguments object of the output
body with its original value, because every injected key carries the
marker. -/
theorem preexisting_arguments_survive (input : InterceptorInput)
    (pm am : List (String × Json)) (k : String) (v : Json)
    (hparams : getVal input.mcp.gatewayRequest.body "params" = some (Json.obj pm))
    (hargs : getVal pm "arguments" = some (Json.obj am))
    (ham : (am.map Prod.fst).Nodup)
    (hk : getVal am k = some v)
    (hmark : ∀ t, k ≠ "mcp_header_" ++ t) :
    getVal (argsOf (handleInterceptorRequest input).mcp.transformedGatewayRequest.body)
      k = some v := by
  have hPV : jsOrElse (getVal input.mcp.gatewayRequest.body "params") (Json.obj []) =
      Json.obj pm := by
    rw [hparams]
    rfl
  have hAV : jsOrElse ((Json.obj pm).getField "arguments") (Json.obj []) = Json.obj am := by
    show jsOrElse (getVal pm "arguments") (Json.obj []) = _
    rw [hargs]
    rfl
  show getVal (argsOf (mergedBody input.mcp.gatewayRequest.body
    (filterAndPrefixHeaders input.mcp.gatewayRequest.headers))) k = some v
  have hmb : mergedBody input.mcp.gatewayRequest.body
      (filterAndPrefixHeaders input.mcp.gatewayRequest.headers) =
      setKey (assign [] input.mcp.gatewayRequest.body) "params"
        (Json.obj (setKey (assign [] pm) "arguments"
          (Json.obj (assign (assign [] am)
            ((filterAndPrefixHeaders input.mcp.gatewayRequest.headers).map
              (fun p => (p.1, Json.str p.2))))))) := by
    simp only [mergedBody]
    rw [hPV, hAV]
    rfl
  rw [hmb]
  have h1 : getVal (setKey (assign [] input.mcp.gatewayRequest.body) "params"
      (Json.obj (setKey (assign [] pm) "arguments"
        (Json.obj (assign (assign [] am)
          ((filterAndPrefixHeaders input.mcp.gatewayRequest.headers).map
            (fun p => (p.1, Json.str p.2)))))))) "params" =
      some (Json.obj (setKey (assign [] pm) "arguments"
        (Json.obj (assign (assign [] am)
          ((filterAndPrefixHeaders input.mcp.gatewayRequest.headers).map
            (fun p => (p.1, Json.str p.2))))))) := by
    rw [getVal_setKey]
    simp
  have h2 : getVal (setKey (assign [] pm) "arguments"
      (Json.obj (assign (assign [] am)
        ((filterAndPrefixHeaders input.mcp.gatewayRequest.headers).map
          (fun p => (p.1, Json.str p.2)))))) "arguments" =
      some (Json.obj (assign (assign [] am)
        ((filterAndPrefixHeaders input.mcp.gatewayRequest.headers).map
          (fun p => (p.1, Json.str p.2))))) := by
    rw [getVal_setKey]
    simp
  simp only [argsOf, h1, h2]
  have hknotin : k ∉ ((filterAndPrefixHeaders input.mcp.gatewayRequest.headers).map
      (fun p => (p.1, Json.str p.2))).map Prod.fst := by
    rw [keys_map_str]
    intro hmem
    rcases filterAndPrefixHeaders_keys _ k hmem with ⟨t, ht⟩
    exact hmark t ht
  rw [getVal_assign_of_not_mem _ _ _ hknotin, getVal_assign,
    lastVal_eq_getVal am k ham, hk]

/-- Witness for claim C9: the unmarked argument key c survives next to an
injected header entry. -/
theorem preexisting_arguments_survive_witness :
    getVal (argsOf (handleInterceptorRequest
      { interceptorInputVersion := "1.0"
        mcp :=
          { rawGatewayRequest := { body := "" }
            gatewayRequest :=
              { path := "/mcp", httpMethod := "POST"
                headers := some [("Authorization", "Bearer t")]
                body := [("params", Json.obj [("arguments",
                  Json.obj [("c", Json.num 3)])])] } } }
      ).mcp.transformedGatewayRequest.body) "c" = some (Json.num 3) := by
  apply preexisting_arguments_survive _
    [("arguments", Json.obj [("c", Json.num 3)])] [("c", Json.num 3)] "c" (Json.num 3)
    (by rfl) (by rfl) (by decide) (by rfl)
  intro t ht
  have hlen := congrArg String.length ht
  rw [String.length_append] at hlen
  have hl1 : ("c" : String).length = 1 := rfl
  have hl2 : ("mcp_header_" : String).length = 11 := rfl
  omega

/-- Claim C4 fails on the code: a truthy non-object params value is not
replaced by the empty object.  With params being the string ab and no
filtered headers, the merged body differs from the merged body of the
params-free input, because the characters of the string are spread into the
resulting params object as index-keyed entries. -/
theorem nonobject_params_counterexample :
    mergedBody [("params", Json.str "ab")] [] ≠ mergedBody [] []
    ∧ getVal (mergedBody [("params", Json.str "ab")] []) "params" =
        some (Json.obj [("0", Json.str "a"), ("1", Json.str "b"),
          ("arguments", Json.obj [])]) := by
  constructor
  · intro h
    have h2 : (["0", "1", "arguments"] : List String) = ["arguments"] :=
      congrArg (fun l => objKeysAt l "params") h
    exact absurd h2 (by decide)
  · rfl

/-- Claim C4 amended: the body-reshaping step never fails, and a non-object
params or params.arguments value is treated as absent exactly when it is
null, a boolean, a number, the empty string or the empty array; a non-empty
string or non-empty array instead has its index-keyed elements spread into
the result.  For the values of the former class the merged body replaces
the value by an object holding only the header-extended arguments. -/
theorem nonobject_params_amended :
    (∀ (body : List (String × Json)) (P : List (String × String)) (v : Json),
      (body.map Prod.fst).Nodup →
      getVal body "params" = some v →
      (v = Json.null ∨ (∃ b, v = Json.bool b) ∨ (∃ n, v = Json.num n) ∨
        v = Json.str "" ∨ v = Json.arr []) →
      mergedBody body P = setKey body "params" (Json.obj [("arguments",
        Json.obj (assign [] (P.map (fun p => (p.1, Json.str p.2)))))]))
    ∧ (∀ (body : List (String × Json)) (P : List (String × String))
        (pm : List (String × Json)) (w : Json),
      (body.map Prod.fst).Nodup → (pm.map Prod.fst).Nodup →
      getVal body "params" = some (Json.obj pm) →
      getVal pm "arguments" = some w →
      (w = Json.null ∨ (∃ b, w = Json.bool b) ∨ (∃ n, w = Json.num n) ∨
        w = Json.str "" ∨ w = Json.arr []) →
      mergedBody body P = setKey body "params" (Json.obj (setKey pm "arguments"
        (Json.obj (assign [] (P.map (fun p => (p.1, Json.str p.2)))))))) := by
  constructor
  · intro body P v hnd hpv hclass
    have hPV : ∃ u : Json, jsOrElse (getVal body "params") (Json.obj []) = u ∧
        u.spreadEntries = [] ∧ u.getField "arguments" = none := by
      rw [hpv]
      rcases hclass with rfl | ⟨b, rfl⟩ | ⟨n, rfl⟩ | rfl | rfl
      · exact ⟨Json.obj [], rfl, rfl, rfl⟩
      · cases b
        · exact ⟨Json.obj [], rfl, rfl, rfl⟩
        · exact ⟨Json.bool true, rfl, rfl, rfl⟩
      · by_cases hn : n = 0
        · subst hn
          exact ⟨Json.obj [], rfl, rfl, rfl⟩
        · refine ⟨Json.num n, ?_, rfl, rfl⟩
          simp [jsOrElse, Json.truthy, hn]
      · exact ⟨Json.obj [], rfl, rfl, rfl⟩
      · exact ⟨Json.arr [], rfl, rfl, rfl⟩
    rcases hPV with ⟨u, hu, hus, huf⟩
    simp only [mergedBody]
    rw [hu, hus, huf]
    simp only [jsOrElse, Json.spreadEntries]
    rw [assign_nil body hnd]
    rfl
  · intro body P pm w hnd hndpm hpv hav hclass
    have hAV : ∃ u : Json, jsOrElse (getVal pm "arguments") (Json.obj []) = u ∧
        u.spreadEntries = [] := by
      rw [hav]
      rcases hclass with rfl | ⟨b, rfl⟩ | ⟨n, rfl⟩ | rfl | rfl
      · exact ⟨Json.obj [], rfl, rfl⟩
      · cases b
        · exact ⟨Json.obj [], rfl, rfl⟩
        · exact ⟨Json.bool true, rfl, rfl⟩
      · by_cases hn : n = 0
        · subst hn
          exact ⟨Json.obj [], rfl, rfl⟩
        · refine ⟨Json.num n, ?_, rfl⟩
          simp [jsOrElse, Json.truthy, hn]
      · exact ⟨Json.obj [], rfl, rfl⟩
      · exact ⟨Json.arr [], rfl, rfl⟩
    rcases hAV with ⟨u, hu, hus⟩
    have hPV : jsOrElse (getVal body "params") (Json.obj []) = Json.obj pm := by
      rw [hpv]
      rfl
    simp only [mergedBody]
    rw [hPV]
    simp only [Json.getField]
    rw [hu, hus]
    simp only [Json.spreadEntries]
    rw [assign_nil body hnd, assign_nil pm hndpm]
    rfl

/-- Witness for the amended claim C4: a null params value behaves as an
absent one. -/
theorem nonobject_params_amended_witness :
    mergedBody [("params", Json.null)] [("mcp_header_X", "v")] =
      setKey [("params", Json.null)] "params" (Json.obj [("arguments",
        Json.obj (assign []
          ([("mcp_header_X", "v")].map (fun p => (p.1, Json.str p.2)))))]) :=
  nonobject_params_amended.1 [("params", Json.null)] [("mcp_header_X", "v")] Json.null
    (by decide) rfl (Or.inl rfl)

end AcGateway
